import Mathlib

/-
Verification of the Rotary Collision Detector & Impact-Mapping Engine
(`src/main.js`).  The numeric helpers and the gate/mapper pipeline are
embedded generically over a linear ordered field (instantiated at `ℚ` for
concrete evaluation); the angular kinematics, which involve `Math.PI` and
`Math.sin`, are embedded over `ℝ` further below.
-/

namespace VentBeat

/-- Embeds `clamp(value, min, max) = Math.min(Math.max(value, min), max)`
(main.js line 97). -/
def clamp {α : Type} [LinearOrder α] (value lo hi : α) : α :=
  min (max value lo) hi

/-- Embeds the JS coercion `Number(x) || 0` applied to an argument that may
be non-numeric: a missing or non-numeric value (modelled as `none`)
collapses to `0`; a numeric value passes through. -/
def numberOr0 {α : Type} [Zero α] (x : Option α) : α :=
  x.getD 0

/-- Embeds the pure gate/normalisation part of `registerCollision`
(main.js lines 957-971): the absolute floor `minStrength = 0.01`, the
threshold gate `rawStrength < threshold`, and the survivor rescaling
`(rawStrength - threshold) / denom` with the `denom <= 1e-5` convention.
Returns `none` when the hit is silently discarded, `some strength`
otherwise. -/
def registerCollisionGate {α : Type} [LinearOrderedField α]
    (hitThreshold rawStrength : α) : Option α :=
  let minStrength : α := 1/100
  if rawStrength < minStrength then none
  else
    let threshold := clamp hitThreshold 0 1
    if rawStrength < threshold then none
    else
      let denom := 1 - threshold
      let normStrength : α := if denom ≤ 1/100000 then 1
        else (rawStrength - threshold) / denom
      some (clamp normStrength 0 1)

/-- Modelled from the spec sentence of C1 (a restatement of the gate in the
claim's own words), to be compared with `registerCollisionGate`: discard
when `rawStrength < 0.01` or `rawStrength < clamp(hitThreshold, 0, 1)`;
otherwise produce `clamp((raw - threshold)/(1 - threshold), 0, 1)`, except
that `1 - threshold ≤ 1e-5` yields `1`. -/
def registerCollisionGateSpec {α : Type} [LinearOrderedField α]
    (hitThreshold rawStrength : α) : Option α :=
  if rawStrength < 1/100 ∨ rawStrength < clamp hitThreshold 0 1 then none
  else some (if 1 - clamp hitThreshold 0 1 ≤ 1/100000 then 1
    else clamp ((rawStrength - clamp hitThreshold 0 1)
      / (1 - clamp hitThreshold 0 1)) 0 1)

/-- Embeds `getImpactStrength` (main.js lines 1226-1230); the strength
argument is an `Option` to model the `Number(rawStrength) || 0` coercion of
a possibly non-numeric input. -/
def getImpactStrength {α : Type} [LinearOrderedField α]
    (impactDynamics : α) (rawStrength : Option α) : α :=
  let dyn := clamp impactDynamics 0 1
  let r := clamp (numberOr0 rawStrength) 0 1
  1 - dyn * (1 - r)

/-- Embeds `getSoftHitLowCutFactor` (main.js lines 1219-1224). -/
def getSoftHitLowCutFactor {α : Type} [LinearOrderedField α]
    (softHitLowCut : α) (strength : Option α) : α :=
  let bias := clamp softHitLowCut 0 1
  let strength01 := clamp (numberOr0 strength) 0 1
  let softness := 1 - strength01
  bias * softness

/-- Embeds the accepted-hit counting over a fixed series of raw strengths
reaching the gate (the observability counter of `registerCollision`
increments exactly when the gate does not silently discard). -/
def acceptedHitCount {α : Type} [LinearOrderedField α]
    (hitThreshold : α) (raws : List α) : ℕ :=
  (raws.filter (fun r => (registerCollisionGate hitThreshold r).isSome)).length

section ClampLemmas

variable {α : Type} [LinearOrderedField α]

lemma clamp_mem01 (v : α) : 0 ≤ clamp v 0 1 ∧ clamp v 0 1 ≤ 1 := by
  constructor
  · exact le_min (le_max_right v 0) zero_le_one
  · exact min_le_right _ _

lemma clamp_mono {x y : α} (lo hi : α) (h : x ≤ y) :
    clamp x lo hi ≤ clamp y lo hi :=
  min_le_min (max_le_max h le_rfl) le_rfl

lemma clamp_of_mem {v : α} (h1 : (0:α) ≤ v) (h2 : v ≤ 1) : clamp v 0 1 = v := by
  unfold clamp
  rw [max_eq_left h1, min_eq_left h2]

lemma clamp_one01 : clamp (1 : α) 0 1 = 1 :=
  clamp_of_mem zero_le_one le_rfl

lemma clamp_zero01 : clamp (0 : α) 0 1 = 0 :=
  clamp_of_mem le_rfl zero_le_one

end ClampLemmas

section GateLemmas

variable {α : Type} [LinearOrderedField α]

lemma registerCollisionGate_eq_none_iff (ht raw : α) :
    registerCollisionGate ht raw = none ↔
      raw < 1/100 ∨ raw < clamp ht 0 1 := by
  unfold registerCollisionGate
  dsimp only
  split_ifs with h1 h2
  · exact iff_of_true rfl (Or.inl h1)
  · exact iff_of_true rfl (Or.inr h2)
  · exact iff_of_false (by simp)
      (by push_neg; exact ⟨not_lt.mp h1, not_lt.mp h2⟩)

lemma registerCollisionGate_isSome_iff (ht raw : α) :
    (registerCollisionGate ht raw).isSome = true ↔
      1/100 ≤ raw ∧ clamp ht 0 1 ≤ raw := by
  rw [Option.isSome_iff_ne_none, Ne, Option.eq_none_iff_forall_not_mem]
  constructor
  · intro h
    by_contra hc
    push_neg at hc
    have hnone : registerCollisionGate ht raw = none := by
      rw [registerCollisionGate_eq_none_iff]
      rcases lt_or_le raw (1/100) with h1 | h1
      · exact Or.inl h1
      · exact Or.inr (hc h1)
    exact h (by simp [hnone])
  · intro ⟨h1, h2⟩ hfa
    have hnone : registerCollisionGate ht raw = none := by
      rcases hopt : registerCollisionGate ht raw with _ | v
      · rfl
      · exact absurd hopt (hfa v)
    rw [registerCollisionGate_eq_none_iff] at hnone
    rcases hnone with h | h
    · exact absurd h1 (not_le.mpr h)
    · exact absurd h2 (not_le.mpr h)

end GateLemmas

/-- C1 (amended): `registerCollision` discards exactly when
`rawStrength < 0.01` or `rawStrength < clamp(hitThreshold, 0, 1)`, and
otherwise produces `clamp((raw - threshold)/(1 - threshold), 0, 1)`, with
strength `1` by convention when `1 - threshold ≤ 1e-5`; every accepted
strength lies in `[0, 1]`; when `1 - threshold > 1e-5` the strength is `0`
exactly when `rawStrength = threshold`; and the strength is `1` whenever
`rawStrength = 1` and `threshold < 1`.  (The original claim's unqualified
biconditional fails when `threshold ≈ 1`: see the counterexample.) -/
theorem registerCollisionGate_correct {α : Type} [LinearOrderedField α]
    (ht raw : α) :
    registerCollisionGate ht raw = registerCollisionGateSpec ht raw ∧
    ∀ s, registerCollisionGate ht raw = some s →
      (0 ≤ s ∧ s ≤ 1) ∧
      (1/100000 < 1 - clamp ht 0 1 → (s = 0 ↔ raw = clamp ht 0 1)) ∧
      (raw = 1 → clamp ht 0 1 < 1 → s = 1) := by
  constructor
  · unfold registerCollisionGate registerCollisionGateSpec
    dsimp only
    by_cases h1 : raw < 1/100
    · rw [if_pos h1, if_pos (Or.inl h1)]
    · rw [if_neg h1]
      by_cases h2 : raw < clamp ht 0 1
      · rw [if_pos h2, if_pos (Or.inr h2)]
      · rw [if_neg h2,
          if_neg (show ¬(raw < 1/100 ∨ raw < clamp ht 0 1) by tauto)]
        by_cases h3 : 1 - clamp ht 0 1 ≤ 1/100000
        · rw [if_pos h3, if_pos h3, clamp_one01]
        · rw [if_neg h3, if_neg h3]
  · intro s hs
    have hacc : 1/100 ≤ raw ∧ clamp ht 0 1 ≤ raw := by
      rw [← registerCollisionGate_isSome_iff]
      simp [hs]
    set t := clamp ht 0 1 with hT
    have hsval : s = clamp (if 1 - t ≤ 1/100000 then 1
        else (raw - t) / (1 - t)) 0 1 := by
      unfold registerCollisionGate at hs
      dsimp only at hs
      rw [if_neg (not_lt.mpr hacc.1), ← hT, if_neg (not_lt.mpr hacc.2)] at hs
      exact (Option.some_inj.mp hs).symm
    refine ⟨?_, ?_, ?_⟩
    · rw [hsval]; exact clamp_mem01 _
    · intro hd
      have hdpos : (0:α) < 1 - t :=
        lt_trans (by norm_num) hd
      have hne : (1:α) - t ≠ 0 := ne_of_gt hdpos
      rw [if_neg (not_le.mpr hd)] at hsval
      have hqnn : (0:α) ≤ (raw - t) / (1 - t) :=
        div_nonneg (sub_nonneg.mpr hacc.2) hdpos.le
      constructor
      · intro h0
        rw [hsval] at h0
        unfold clamp at h0
        rw [max_eq_left hqnn] at h0
        have hq0 : (raw - t) / (1 - t) = 0 := by
          rcases le_or_lt ((raw - t) / (1 - t)) 1 with hle | hlt
          · rwa [min_eq_left hle] at h0
          · rw [min_eq_right hlt.le] at h0
            exact absurd h0 one_ne_zero
        have : raw - t = 0 := by
          rcases div_eq_zero_iff.mp hq0 with h | h
          · exact h
          · exact absurd h hne
        linarith
      · intro hr
        rw [hsval, hr]
        simp [clamp_zero01]
    · intro hr1 htlt
      rw [hsval, hr1]
      split_ifs with hd
      · exact clamp_one01
      · rw [div_self (ne_of_gt (sub_pos.mpr htlt))]
        exact clamp_one01

/-- C1 counterexample to the claim as stated: at `hitThreshold = 1` and
`rawStrength = 1` the hit is accepted with strength `1`, although
`rawStrength = threshold`; so strength is not `0` exactly when
`rawStrength = threshold`. -/
theorem registerCollisionGate_threshold_one_cex :
    registerCollisionGate (1 : ℚ) 1 = some 1 ∧
    clamp (1 : ℚ) 0 1 = 1 ∧ (1 : ℚ) ≠ 0 := by
  refine ⟨?_, ?_, one_ne_zero⟩
  · norm_num [registerCollisionGate, clamp]
  · norm_num [clamp]

/-- C6: for thresholds `t1 < t2` in `[0, 1]` and a fixed series of raw
strengths reaching the gate, the number of hits accepted under `t2` is at
most the number accepted under `t1`. -/
theorem acceptedHitCount_antitone {α : Type} [LinearOrderedField α]
    (t1 t2 : α) (raws : List α)
    (h0 : 0 ≤ t1) (h12 : t1 < t2) (h1 : t2 ≤ 1) :
    acceptedHitCount t2 raws ≤ acceptedHitCount t1 raws := by
  have hmono : ∀ r : α, (registerCollisionGate t2 r).isSome = true →
      (registerCollisionGate t1 r).isSome = true := by
    intro r h
    rw [registerCollisionGate_isSome_iff] at h ⊢
    exact ⟨h.1, le_trans (clamp_mono 0 1 h12.le) h.2⟩
  induction raws with
  | nil => exact le_refl _
  | cons r rs ih =>
    unfold acceptedHitCount at ih ⊢
    rw [List.filter_cons, List.filter_cons]
    by_cases ha : (registerCollisionGate t2 r).isSome = true
    · rw [if_pos ha, if_pos (hmono r ha)]
      simpa using Nat.succ_le_succ ih
    · rw [if_neg ha]
      by_cases hb : (registerCollisionGate t1 r).isSome = true
      · rw [if_pos hb]
        simp only [List.length_cons]
        exact le_trans ih (Nat.le_succ _)
      · rw [if_neg hb]
        exact ih

/-- C6 witness: a concrete threshold pair and strength series. -/
theorem acceptedHitCount_antitone_witness :
    acceptedHitCount (1/2 : ℚ) [0, 1/4, 3/4, 1] ≤
      acceptedHitCount (1/10 : ℚ) [0, 1/4, 3/4, 1] :=
  acceptedHitCount_antitone (1/10) (1/2) [0, 1/4, 3/4, 1]
    (by norm_num) (by norm_num) (by norm_num)

/-- C7: `getImpactStrength` is total for every input (a non-numeric
strength collapses to `0` through the `Number(x) || 0` coercion) and equals
`1 - dyn * (1 - clamp(strength, 0, 1))` with `dyn = clamp(impactDynamics,
0, 1)`; at `impactDynamics = 0` it returns `1` regardless of strength, and
at `impactDynamics = 1` it returns `clamp(strength, 0, 1)` exactly. -/
theorem getImpactStrength_correct {α : Type} [LinearOrderedField α]
    (impactDynamics : α) (s : Option α) :
    getImpactStrength impactDynamics s =
      1 - clamp impactDynamics 0 1 * (1 - clamp (numberOr0 s) 0 1) ∧
    (impactDynamics = 0 → getImpactStrength impactDynamics s = 1) ∧
    (impactDynamics = 1 →
      getImpactStrength impactDynamics s = clamp (numberOr0 s) 0 1) := by
  refine ⟨rfl, ?_, ?_⟩
  · intro h
    unfold getImpactStrength
    rw [h, clamp_zero01]
    ring
  · intro h
    unfold getImpactStrength
    rw [h, clamp_one01]
    ring

/-- C8: `getSoftHitLowCutFactor` equals `bias * (1 - clamp(strength, 0,
1))` with `bias = clamp(softHitLowCut, 0, 1)`; for a fixed bias it is
monotonically non-increasing in the strength, and it is `0` for every
strength whenever the bias knob is `0`. -/
theorem getSoftHitLowCutFactor_correct {α : Type} [LinearOrderedField α]
    (softHitLowCut : α) (s : Option α) :
    getSoftHitLowCutFactor softHitLowCut s =
      clamp softHitLowCut 0 1 * (1 - clamp (numberOr0 s) 0 1) ∧
    (∀ x y : α, x ≤ y →
      getSoftHitLowCutFactor softHitLowCut (some y) ≤
        getSoftHitLowCutFactor softHitLowCut (some x)) ∧
    (softHitLowCut = 0 → getSoftHitLowCutFactor softHitLowCut s = 0) := by
  refine ⟨rfl, ?_, ?_⟩
  · intro x y hxy
    unfold getSoftHitLowCutFactor numberOr0
    simp only [Option.getD_some]
    have hbias : (0:α) ≤ clamp softHitLowCut 0 1 := (clamp_mem01 _).1
    have hcl : clamp x 0 1 ≤ clamp y 0 1 := clamp_mono 0 1 hxy
    have : 1 - clamp y 0 1 ≤ 1 - clamp x 0 1 := by linarith
    exact mul_le_mul_of_nonneg_left this hbias
  · intro h
    unfold getSoftHitLowCutFactor
    rw [h, clamp_zero01]
    ring

/-
Angular kinematics.  These parts of main.js use `Math.PI`, `Math.sin` and
the JS remainder operator, so they are embedded over `ℝ`.
-/

/-- Embeds `const TWO_PI = Math.PI * 2` (main.js line 2). -/
noncomputable def TWO_PI : ℝ := Real.pi * 2

/-- Embeds `const HIT_ANGLE_TOL = 0.25` (main.js line 3). -/
noncomputable def HIT_ANGLE_TOL : ℝ := 0.25

lemma TWO_PI_pos : (0:ℝ) < TWO_PI := by
  unfold TWO_PI
  have := Real.pi_pos
  linarith

/-- Embeds truncation toward zero, as the JS `%` operator applies to the
quotient of its operands. -/
noncomputable def jsTrunc (z : ℝ) : ℝ :=
  if 0 ≤ z then (⌊z⌋ : ℝ) else (⌈z⌉ : ℝ)

/-- Embeds the JS remainder `x % y` (for finite `x` and `y > 0`): the
remainder of truncated division, carrying the sign of the dividend. -/
noncomputable def jsMod (x y : ℝ) : ℝ :=
  x - y * jsTrunc (x / y)

lemma jsMod_of_nonneg (x y : ℝ) (hx : 0 ≤ x) (hy : 0 < y) :
    jsMod x y = x - y * ⌊x / y⌋ ∧ 0 ≤ jsMod x y ∧ jsMod x y < y := by
  have hq : 0 ≤ x / y := div_nonneg hx hy.le
  have heq : jsMod x y = x - y * ⌊x / y⌋ := by
    unfold jsMod jsTrunc
    rw [if_pos hq]
  have hfr : x - y * ⌊x / y⌋ = y * Int.fract (x / y) := by
    rw [Int.fract]
    have hxy : y * (x / y) = x := by
      rw [mul_comm]
      exact div_mul_cancel₀ x (ne_of_gt hy)
    rw [mul_sub, hxy]
  refine ⟨heq, ?_, ?_⟩
  · rw [heq, hfr]
    exact mul_nonneg hy.le (Int.fract_nonneg _)
  · rw [heq, hfr]
    calc y * Int.fract (x / y) < y * 1 :=
          (mul_lt_mul_left hy).mpr (Int.fract_lt_one _)
      _ = y := mul_one y

lemma jsMod_of_neg (x y : ℝ) (hx : x < 0) (hy : 0 < y) :
    -y < jsMod x y ∧ jsMod x y ≤ 0 := by
  have hq : ¬ (0 ≤ x / y) := by
    rw [not_le]
    exact div_neg_of_neg_of_pos hx hy
  have heq : jsMod x y = x - y * ⌈x / y⌉ := by
    unfold jsMod jsTrunc
    rw [if_neg hq]
  have hc1 : (⌈x / y⌉ : ℝ) < x / y + 1 := Int.ceil_lt_add_one _
  have hc2 : (x / y : ℝ) ≤ ⌈x / y⌉ := Int.le_ceil _
  have hxy : y * (x / y) = x := by
    rw [mul_comm]
    exact div_mul_cancel₀ x (ne_of_gt hy)
  constructor
  · rw [heq]
    have := (mul_lt_mul_left hy).mpr hc1
    rw [mul_add, hxy, mul_one] at this
    linarith
  · rw [heq]
    have := (mul_le_mul_left hy).mpr hc2
    rw [hxy] at this
    linarith

lemma natCeil_sub_one_lt {x : ℝ} (hx : 0 < x) : ⌈x - 1⌉₊ < ⌈x⌉₊ := by
  have h1 : (↑⌈x - 1⌉₊ : ℝ) < x := by
    rcases le_or_lt (x - 1) 0 with h | h
    · rw [Nat.ceil_eq_zero.mpr h]
      exact_mod_cast hx
    · calc (↑⌈x - 1⌉₊ : ℝ) < (x - 1) + 1 := Nat.ceil_lt_add_one h.le
        _ = x := by ring
  exact Nat.lt_ceil.mpr h1

/-- Embeds the first loop of `smallestAngleDiff` (main.js line 86):
`while (d > Math.PI) d -= TWO_PI`. -/
noncomputable def wrapDown (d : ℝ) : ℝ :=
  if h : Real.pi < d then wrapDown (d - TWO_PI) else d
termination_by ⌈(d - Real.pi) / TWO_PI⌉₊
decreasing_by
  have h2 : (0:ℝ) < TWO_PI := TWO_PI_pos
  have key : (d - TWO_PI - Real.pi) / TWO_PI = (d - Real.pi) / TWO_PI - 1 := by
    field_simp
    ring
  rw [key]
  exact natCeil_sub_one_lt (div_pos (by linarith) h2)

/-- Embeds the second loop of `smallestAngleDiff` (main.js line 87):
`while (d < -Math.PI) d += TWO_PI`. -/
noncomputable def wrapUp (d : ℝ) : ℝ :=
  if h : d < -Real.pi then wrapUp (d + TWO_PI) else d
termination_by ⌈(-Real.pi - d) / TWO_PI⌉₊
decreasing_by
  have h2 : (0:ℝ) < TWO_PI := TWO_PI_pos
  have key : (-Real.pi - (d + TWO_PI)) / TWO_PI = (-Real.pi - d) / TWO_PI - 1 := by
    field_simp
    ring
  rw [key]
  exact natCeil_sub_one_lt (div_pos (by linarith) h2)

/-- Embeds `smallestAngleDiff(a, b)` (main.js lines 84-89). -/
noncomputable def smallestAngleDiff (a b : ℝ) : ℝ :=
  wrapUp (wrapDown (a - b))

lemma wrapDown_le (d : ℝ) : wrapDown d ≤ Real.pi := by
  induction d using wrapDown.induct with
  | case1 d h ih =>
    rw [wrapDown, dif_pos h]
    exact ih
  | case2 d h =>
    rw [wrapDown, dif_neg h]
    exact le_of_not_lt h

lemma wrapDown_lower (d : ℝ) : -Real.pi < wrapDown d ∨ wrapDown d = d := by
  induction d using wrapDown.induct with
  | case1 d h ih =>
    rw [wrapDown, dif_pos h]
    rcases ih with hlt | heq
    · exact Or.inl hlt
    · refine Or.inl ?_
      rw [heq]
      unfold TWO_PI
      linarith [Real.pi_pos]
  | case2 d h =>
    rw [wrapDown, dif_neg h]
    exact Or.inr rfl

lemma wrapDown_congr (d : ℝ) : ∃ k : ℤ, wrapDown d = d - TWO_PI * k := by
  induction d using wrapDown.induct with
  | case1 d h ih =>
    obtain ⟨k, hk⟩ := ih
    refine ⟨k + 1, ?_⟩
    rw [wrapDown, dif_pos h, hk]
    push_cast
    ring
  | case2 d h =>
    refine ⟨0, ?_⟩
    rw [wrapDown, dif_neg h]
    simp

lemma wrapUp_ge (d : ℝ) : -Real.pi ≤ wrapUp d := by
  induction d using wrapUp.induct with
  | case1 d h ih =>
    rw [wrapUp, dif_pos h]
    exact ih
  | case2 d h =>
    rw [wrapUp, dif_neg h]
    exact le_of_not_lt h

lemma wrapUp_le (d : ℝ) : d ≤ Real.pi → wrapUp d ≤ Real.pi := by
  induction d using wrapUp.induct with
  | case1 d h ih =>
    intro _
    rw [wrapUp, dif_pos h]
    refine ih ?_
    unfold TWO_PI
    linarith
  | case2 d h =>
    intro hd
    rw [wrapUp, dif_neg h]
    exact hd

lemma wrapUp_congr (d : ℝ) : ∃ k : ℤ, wrapUp d = d + TWO_PI * k := by
  induction d using wrapUp.induct with
  | case1 d h ih =>
    obtain ⟨k, hk⟩ := ih
    refine ⟨k + 1, ?_⟩
    rw [wrapUp, dif_pos h, hk]
    push_cast
    ring
  | case2 d h =>
    refine ⟨0, ?_⟩
    rw [wrapUp, dif_neg h]
    simp

/-- C4 (amended): `smallestAngleDiff(a, b)` reduces the raw difference
`a - b` into the closed interval `[-π, π]` — congruent to `a - b` modulo
`2π`, at least `-π` and at most `π`.  (The original claim's strict lower
bound fails: the value `-π` is attainable, see the counterexample.) -/
theorem smallestAngleDiff_correct (a b : ℝ) :
    -Real.pi ≤ smallestAngleDiff a b ∧ smallestAngleDiff a b ≤ Real.pi ∧
    ∃ k : ℤ, smallestAngleDiff a b = a - b - 2 * Real.pi * k := by
  unfold smallestAngleDiff
  refine ⟨wrapUp_ge _, wrapUp_le _ (wrapDown_le _), ?_⟩
  obtain ⟨k1, h1⟩ := wrapDown_congr (a - b)
  obtain ⟨k2, h2⟩ := wrapUp_congr (wrapDown (a - b))
  refine ⟨k1 - k2, ?_⟩
  rw [h2, h1]
  unfold TWO_PI
  push_cast
  ring

/-- C4 counterexample to the claim as stated: at `a = 0`, `b = π` the raw
difference is exactly `-π`, neither loop runs, and the result is `-π`,
which is not strictly greater than `-π`. -/
theorem smallestAngleDiff_neg_pi_cex :
    smallestAngleDiff 0 Real.pi = -Real.pi ∧
    ¬ (-Real.pi < smallestAngleDiff 0 Real.pi) := by
  have hd : wrapDown (-Real.pi) = -Real.pi := by
    rw [wrapDown, dif_neg (not_lt.mpr (by linarith [Real.pi_pos]))]
  have hu : wrapUp (-Real.pi) = -Real.pi := by
    rw [wrapUp, dif_neg (lt_irrefl _)]
  have hval : smallestAngleDiff 0 Real.pi = -Real.pi := by
    unfold smallestAngleDiff
    rw [show (0:ℝ) - Real.pi = -Real.pi by ring, hd, hu]
  exact ⟨hval, by rw [hval]; exact lt_irrefl _⟩

/-
The simulation core: state, kinematics and the collision detector loop of
`stepSimulation` (main.js lines 894-955).
-/

/-- Embeds an entry of the `obstacles` array (main.js lines 206-216); the
collision loop reads only `angle`. -/
structure Obstacle where
  angle : ℝ
  sampleIndex : ℤ
  volume : ℝ
  enabled : Bool

/-- The configuration slice of the global `state` object read by
`stepSimulation`, together with the `obstacles` list. -/
structure Config where
  rpm : ℝ
  bladeCount : ℕ
  axisJitter : ℝ
  timingJitter : ℝ
  wobbleFreqHz : ℝ
  hitThreshold : ℝ
  obstacles : List Obstacle

/-- The mutable simulation state (main.js lines 60-63 and 889): `simTime`,
`wasInHitZone`, `lastHitRev` (`⊥` models the `-Infinity` fill) and
`wobblePhasePerBlade`. -/
structure SimState where
  simTime : ℝ
  wasInHitZone : List (List Bool)
  lastHitRev : List (List (WithBot ℤ))
  wobblePhasePerBlade : List ℝ

/-- A call of `registerCollision` raised by the detector (main.js line
943); `time` is the simulation time at emission and `rev` the revolution
index `Math.floor(baseAngle / TWO_PI)` current at emission. -/
structure CollisionEvent where
  rawStrength : ℝ
  bladeIndex : ℕ
  obstacleIndex : ℕ
  time : ℝ
  rev : ℤ

/-- Embeds `omega = (state.rpm / 60) * TWO_PI` (main.js line 897). -/
noncomputable def omega (cfg : Config) : ℝ :=
  cfg.rpm / 60 * TWO_PI

/-- Embeds `resetHitStates` (main.js lines 340-347). -/
def resetHitStates (cfg : Config) (st : SimState) : SimState :=
  { st with
    wasInHitZone :=
      List.replicate cfg.bladeCount (List.replicate cfg.obstacles.length false),
    lastHitRev :=
      List.replicate cfg.bladeCount (List.replicate cfg.obstacles.length ⊥) }

/-- The size test of `ensureHitStateSize` (main.js lines 349-368). -/
def hitStateSizeOk (cfg : Config) (st : SimState) : Bool :=
  (st.wasInHitZone.length = cfg.bladeCount &&
    st.lastHitRev.length = cfg.bladeCount) &&
  (st.wasInHitZone.all (fun row => row.length = cfg.obstacles.length) &&
    st.lastHitRev.all (fun row => row.length = cfg.obstacles.length))

/-- Embeds `ensureHitStateSize` (main.js lines 349-368). -/
def ensureHitStateSize (cfg : Config) (st : SimState) : SimState :=
  if hitStateSizeOk cfg st then st else resetHitStates cfg st

/-- Embeds `resetWobblePhases` (main.js lines 370-379): phase `(TWO_PI *
b) / bladeCount` per blade. -/
noncomputable def resetWobblePhases (cfg : Config) (st : SimState) : SimState :=
  { st with wobblePhasePerBlade :=
      (List.range cfg.bladeCount).map (fun b => TWO_PI * b / cfg.bladeCount) }

/-- Embeds `ensureWobblePhaseSize` (main.js lines 381-385). -/
noncomputable def ensureWobblePhaseSize (cfg : Config) (st : SimState) : SimState :=
  if st.wobblePhasePerBlade.length = cfg.bladeCount then st
  else resetWobblePhases cfg st

/-- Embeds the read `wasInHitZone[b]?.[o] ?? false` (main.js line 935). -/
def prevInZone (st : SimState) (b o : ℕ) : Bool :=
  (st.wasInHitZone.getD b []).getD o false

/-- Embeds the read `lastHitRev[b][o] ?? -Infinity` after the missing-row
fill (main.js lines 938-941). -/
def lastRevOf (st : SimState) (b o : ℕ) : WithBot ℤ :=
  (st.lastHitRev.getD b []).getD o ⊥

/-- An in-range assignment `arr[b][o] = v` on a nested array; outside the
array bounds it is inert, which the `ensure*Size` calls make unreachable. -/
def setNested {γ : Type} (l : List (List γ)) (b o : ℕ) (v : γ) :
    List (List γ) :=
  l.set b ((l.getD b []).set o v)

/-- The angle of obstacle `o` as the collision loop reads it. -/
noncomputable def obstacleAngle (cfg : Config) (o : ℕ) : ℝ :=
  (cfg.obstacles.map Obstacle.angle).getD o 0

/-- Embeds the nominal blade angle `(baseAngle + (TWO_PI * b) /
state.bladeCount) % TWO_PI` (main.js lines 915-916). -/
noncomputable def bladeNominalAngle (cfg : Config) (baseAngle : ℝ) (b : ℕ) : ℝ :=
  jsMod (baseAngle + TWO_PI * b / cfg.bladeCount) TWO_PI

/-- Embeds `wobbleOmega = TWO_PI * Math.max(state.wobbleFreqHz, 0)`
(main.js line 905). -/
noncomputable def wobbleOmega (cfg : Config) : ℝ :=
  TWO_PI * max cfg.wobbleFreqHz 0

/-- Embeds `noiseRatio = 0.15` (main.js line 906). -/
noncomputable def noiseRatio : ℝ := 0.15

/-- Embeds `jitterFactor = clamp(Number(state.timingJitter) || 0, 0, 1)`
(main.js line 907). -/
noncomputable def jitterFactor (cfg : Config) : ℝ :=
  clamp cfg.timingJitter 0 1

/-- Embeds the wobble term (main.js lines 917-926); `noiseVal` stands for
the fresh uniform draw `Math.random() * 2 - 1` of this sub-step and
blade. -/
noncomputable def bladeWobble (cfg : Config) (st : SimState)
    (noiseVal t : ℝ) (b : ℕ) : ℝ :=
  let phase := st.wobblePhasePerBlade.getD b 0
  let deterministicWobble :=
    cfg.axisJitter * Real.sin (wobbleOmega cfg * t + phase)
  let noise := cfg.axisJitter * noiseRatio * jitterFactor cfg * noiseVal
  deterministicWobble + noise

/-- The wobble-adjusted angle `angle + wobble` used for collision testing
(main.js line 930). -/
noncomputable def wobbleAdjustedBladeAngle (cfg : Config) (st : SimState)
    (noiseVal t baseAngle : ℝ) (b : ℕ) : ℝ :=
  bladeNominalAngle cfg baseAngle b + bladeWobble cfg st noiseVal t b

/-- Embeds the raw-strength computation of the pair loop (main.js lines
931-933): `clamp(1 - |angleDiff| / HIT_ANGLE_TOL, 0, 1)`. -/
noncomputable def pairRawStrength (cfg : Config) (o : ℕ)
    (wobbleAdjustedAngle : ℝ) : ℝ :=
  clamp (1 - |smallestAngleDiff wobbleAdjustedAngle (obstacleAngle cfg o)|
    / HIT_ANGLE_TOL) 0 1

/-- A loop body that threads the simulation state and appends the
collision events it raises, as every loop of `stepSimulation` does. -/
def accumRun {ι : Type} (f : ι → SimState → SimState × List CollisionEvent)
    (l : List ι) (s : SimState) : SimState × List CollisionEvent :=
  l.foldl (fun acc x => ((f x acc.1).1, acc.2 ++ (f x acc.1).2)) (s, [])

/-- Embeds the per-(blade, obstacle) body of the collision loop (main.js
lines 928-951): zone flag, rising-edge test, revolution-deduplication
test, the `registerCollision` call (the raised event) and the
`lastHitRev` / `wasInHitZone` writes. -/
noncomputable def pairPass (cfg : Config) (t : ℝ) (revIndex : ℤ) (b o : ℕ)
    (wobbleAdjustedAngle : ℝ) (st : SimState) :
    SimState × List CollisionEvent :=
  let rawStrength := pairRawStrength cfg o wobbleAdjustedAngle
  let inZone : Bool := decide (0 < rawStrength)
  let prev := prevInZone st b o
  let res :=
    if !prev && inZone then
      if lastRevOf st b o < (revIndex : WithBot ℤ) then
        ({ st with lastHitRev := setNested st.lastHitRev b o (revIndex : WithBot ℤ) },
         [{ rawStrength := rawStrength, bladeIndex := b, obstacleIndex := o,
            time := t, rev := revIndex }])
      else (st, [])
    else (st, [])
  ({ res.1 with wasInHitZone := setNested res.1.wasInHitZone b o inZone },
   res.2)

/-- Embeds the per-blade pass (main.js lines 914-953): the wobble-adjusted
angle is computed once per blade, then the obstacle loop runs. -/
noncomputable def bladePass (cfg : Config) (noiseVal : ℝ)
    (t baseAngle : ℝ) (revIndex : ℤ) (b : ℕ) (st : SimState) :
    SimState × List CollisionEvent :=
  let ang := wobbleAdjustedBladeAngle cfg st noiseVal t baseAngle b
  accumRun (fun o s => pairPass cfg t revIndex b o ang s)
    (List.range cfg.obstacles.length) st

/-- Embeds one sub-step of `stepSimulation` (main.js lines 909-953):
`simTime += h`, then a full angle/collision pass over every blade. -/
noncomputable def substep (cfg : Config) (noise : ℕ → ℝ) (h : ℝ)
    (st : SimState) : SimState × List CollisionEvent :=
  let t := st.simTime + h
  let baseAngle := omega cfg * t
  let revIndex : ℤ := ⌊baseAngle / TWO_PI⌋
  accumRun (fun b s => bladePass cfg (noise b) t baseAngle revIndex b s)
    (List.range cfg.bladeCount) { st with simTime := t }

/-- The sub-step loop of `stepSimulation` (main.js lines 909-954), run for
the first `n` sub-steps. -/
noncomputable def runSubsteps (cfg : Config) (noise : ℕ → ℕ → ℝ) (h : ℝ)
    (n : ℕ) (st : SimState) : SimState × List CollisionEvent :=
  accumRun (fun s acc => substep cfg (noise s) h acc) (List.range n) st

/-- Embeds `stepSimulation(dt)` (main.js lines 894-955): the `dt <= 0` and
`omega <= 0` silent no-ops, the `ensure*Size` calls, and the fixed loop of
`substeps = 4` sub-steps of size `dt / 4`.  `noise` supplies the uniform
draw of each (sub-step, blade) pair. -/
noncomputable def stepSimulation (cfg : Config) (noise : ℕ → ℕ → ℝ)
    (st : SimState) (dt : ℝ) : SimState × List CollisionEvent :=
  if dt ≤ 0 then (st, [])
  else if omega cfg ≤ 0 then (st, [])
  else
    let substeps : ℕ := 4
    let h := dt / (substeps : ℝ)
    let st0 := ensureWobblePhaseSize cfg (ensureHitStateSize cfg st)
    runSubsteps cfg noise h substeps st0

/-- Repeated driving-loop ticks: each element of `ticks` supplies the
elapsed `dt` and the noise draws of that tick. -/
noncomputable def runSim (cfg : Config) (ticks : List (ℝ × (ℕ → ℕ → ℝ)))
    (st : SimState) : SimState × List CollisionEvent :=
  accumRun (fun tk s => stepSimulation cfg tk.2 s tk.1) ticks st

/-- The angle normalisation of `rebuildObstacles` (main.js line 205):
`(angle % TWO_PI + TWO_PI) % TWO_PI`. -/
noncomputable def rebuildObstacleAngle (angle : ℝ) : ℝ :=
  jsMod (jsMod angle TWO_PI + TWO_PI) TWO_PI

/-- The obstacle angle written by the drag handler of
`renderObstacleAngleControls` (main.js lines 541-547): `ratio * TWO_PI`
with `ratio = clamp(.., 0, 1)`. -/
noncomputable def dragObstacleAngle (ratio : ℝ) : ℝ :=
  clamp ratio 0 1 * TWO_PI

/-- The sizing invariant the `ensure*` calls establish: the hit-zone
arrays are exactly `bladeCount × obstacleCount`. -/
def HitSized (cfg : Config) (st : SimState) : Prop :=
  hitStateSizeOk cfg st = true

/-- The revolution indices of the events raised for one (blade, obstacle)
pair, in emission order. -/
def pairRevList (b o : ℕ) (evs : List CollisionEvent) : List ℤ :=
  (evs.filter (fun e => e.bladeIndex == b && e.obstacleIndex == o)).map
    CollisionEvent.rev

/-- The emitted revolution indices climb strictly from a starting
record. -/
def RevChain (l : WithBot ℤ) : List ℤ → Prop
  | [] => True
  | r :: rs => l < (r : WithBot ℤ) ∧ RevChain (r : WithBot ℤ) rs

/-- The last recorded revolution after a run that emitted `rs`, starting
from record `l`. -/
def endRev (l : WithBot ℤ) (rs : List ℤ) : WithBot ℤ :=
  rs.foldl (fun _ (r : ℤ) => (r : WithBot ℤ)) l

/-- One detector step behaves correctly for the pair `(b, o)`: the
revolutions of the events it raises for that pair climb strictly from the
pair's incoming record, and the outgoing record is the last of them (or
the incoming record when none was raised). -/
def PairStepOk (b o : ℕ) (st : SimState) (evs : List CollisionEvent)
    (st2 : SimState) : Prop :=
  RevChain (lastRevOf st b o) (pairRevList b o evs) ∧
  lastRevOf st2 b o = endRev (lastRevOf st b o) (pairRevList b o evs)

/-- A concrete obstacle at angle `0`, for witnesses. -/
noncomputable def obstacleAtZero : Obstacle :=
  { angle := 0, sampleIndex := 0, volume := 1, enabled := true }

/-- A concrete running configuration, for witnesses: one blade at 60 rpm,
full axis jitter, wobble at 0.75 Hz, one obstacle at angle `0`. -/
noncomputable def cfgWitness : Config :=
  { rpm := 60, bladeCount := 1, axisJitter := 1, timingJitter := 0,
    wobbleFreqHz := 3/4, hitThreshold := 12/100,
    obstacles := [obstacleAtZero] }

/-- A concrete correctly-sized simulation state, for witnesses. -/
noncomputable def stWitness : SimState :=
  { simTime := 1, wasInHitZone := [[false]], lastHitRev := [[⊥]],
    wobblePhasePerBlade := [0] }

section AccumRunLemmas

variable {ι : Type} (f : ι → SimState → SimState × List CollisionEvent)

lemma accumRun_nil (s : SimState) : accumRun f [] s = (s, []) := rfl

lemma accumRun_shift (l : List ι) :
    ∀ (s : SimState) (evs : List CollisionEvent),
      l.foldl (fun acc x => ((f x acc.1).1, acc.2 ++ (f x acc.1).2)) (s, evs)
        = ((accumRun f l s).1, evs ++ (accumRun f l s).2) := by
  induction l with
  | nil => intro s evs; simp [accumRun]
  | cons x xs ih =>
    intro s evs
    simp only [accumRun, List.foldl_cons] at *
    rcases hfx : f x s with ⟨s1, e1⟩
    dsimp only
    simp only [List.nil_append]
    rw [ih s1 (evs ++ e1), ih s1 e1]
    simp

lemma accumRun_cons (x : ι) (xs : List ι) (s : SimState) :
    accumRun f (x :: xs) s =
      ((accumRun f xs (f x s).1).1,
        (f x s).2 ++ (accumRun f xs (f x s).1).2) := by
  unfold accumRun
  rw [List.foldl_cons]
  have := accumRun_shift f xs (f x s).1 ([] ++ (f x s).2)
  simpa using this

lemma accumRun_singleton (x : ι) (s : SimState) :
    accumRun f [x] s = f x s := by
  rw [accumRun_cons]
  simp [accumRun_nil]

lemma accumRun_append (l1 l2 : List ι) (s : SimState) :
    accumRun f (l1 ++ l2) s =
      ((accumRun f l2 (accumRun f l1 s).1).1,
        (accumRun f l1 s).2 ++ (accumRun f l2 (accumRun f l1 s).1).2) := by
  induction l1 generalizing s with
  | nil => simp [accumRun_nil]
  | cons x xs ih =>
    rw [List.cons_append, accumRun_cons, accumRun_cons, ih]
    simp

lemma accumRun_preserve {P : SimState → Prop} {l : List ι}
    (hf : ∀ x ∈ l, ∀ s, P s → P (f x s).1) :
    ∀ s, P s → P (accumRun f l s).1 := by
  induction l with
  | nil => intro s hs; simpa [accumRun_nil] using hs
  | cons x xs ih =>
    intro s hs
    rw [accumRun_cons]
    exact ih (fun y hy => hf y (List.mem_cons_of_mem x hy))
      (f x s).1 (hf x (List.mem_cons_self x xs) s hs)

lemma accumRun_events_nil {l : List ι}
    (hf : ∀ x ∈ l, ∀ s, (f x s).2 = []) :
    ∀ s, (accumRun f l s).2 = [] := by
  induction l with
  | nil => intro s; rfl
  | cons x xs ih =>
    intro s
    rw [accumRun_cons, hf x (List.mem_cons_self x xs) s]
    exact ih (fun y hy => hf y (List.mem_cons_of_mem x hy)) _

lemma accumRun_mem_events {Q : CollisionEvent → Prop} {l : List ι}
    (hf : ∀ x ∈ l, ∀ s, ∀ e ∈ (f x s).2, Q e) :
    ∀ s, ∀ e ∈ (accumRun f l s).2, Q e := by
  induction l with
  | nil => intro s e he; simp [accumRun_nil] at he
  | cons x xs ih =>
    intro s e he
    rw [accumRun_cons] at he
    rcases List.mem_append.mp he with h | h
    · exact hf x (List.mem_cons_self x xs) s e h
    · exact ih (fun y hy => hf y (List.mem_cons_of_mem x hy)) _ e h

end AccumRunLemmas

section SimTimeLemmas

lemma pairPass_simTime (cfg : Config) (t : ℝ) (rev : ℤ) (b o : ℕ)
    (ang : ℝ) (st : SimState) :
    (pairPass cfg t rev b o ang st).1.simTime = st.simTime := by
  unfold pairPass
  dsimp only
  split_ifs <;> rfl

lemma pairPass_phases (cfg : Config) (t : ℝ) (rev : ℤ) (b o : ℕ)
    (ang : ℝ) (st : SimState) :
    (pairPass cfg t rev b o ang st).1.wobblePhasePerBlade =
      st.wobblePhasePerBlade := by
  unfold pairPass
  dsimp only
  split_ifs <;> rfl

lemma bladePass_simTime (cfg : Config) (nv t baseAngle : ℝ) (rev : ℤ)
    (b : ℕ) (st : SimState) :
    (bladePass cfg nv t baseAngle rev b st).1.simTime = st.simTime := by
  unfold bladePass
  exact accumRun_preserve _
    (fun o _ s hs => (pairPass_simTime cfg t rev b o _ s).trans hs) st rfl

lemma substep_simTime (cfg : Config) (noise : ℕ → ℝ) (h : ℝ)
    (st : SimState) :
    (substep cfg noise h st).1.simTime = st.simTime + h := by
  unfold substep
  dsimp only
  exact accumRun_preserve _
    (fun b _ s hs => (bladePass_simTime cfg _ _ _ _ b s).trans hs) _ rfl

lemma ensureHitStateSize_simTime (cfg : Config) (st : SimState) :
    (ensureHitStateSize cfg st).simTime = st.simTime := by
  unfold ensureHitStateSize resetHitStates
  split_ifs <;> rfl

lemma ensureWobblePhaseSize_simTime (cfg : Config) (st : SimState) :
    (ensureWobblePhaseSize cfg st).simTime = st.simTime := by
  unfold ensureWobblePhaseSize resetWobblePhases
  split_ifs <;> rfl

lemma runSubsteps_simTime (cfg : Config) (noise : ℕ → ℕ → ℝ) (h : ℝ)
    (n : ℕ) (st : SimState) :
    (runSubsteps cfg noise h n st).1.simTime = st.simTime + n * h := by
  induction n with
  | zero => simp [runSubsteps, accumRun_nil]
  | succ n ih =>
    unfold runSubsteps at ih ⊢
    rw [List.range_succ, accumRun_append]
    dsimp only
    rw [accumRun_singleton]
    rw [substep_simTime, ih]
    push_cast
    ring

end SimTimeLemmas

/-- C9: when `dt ≤ 0` or `ω ≤ 0`, `stepSimulation` is a silent no-op that
returns the state unchanged and raises no collision event; and a zero
blade count or an empty obstacle list yields zero collision events for the
step, never an error. -/
theorem stepSimulation_degenerate (cfg : Config) (noise : ℕ → ℕ → ℝ)
    (st : SimState) (dt : ℝ) :
    (dt ≤ 0 ∨ omega cfg ≤ 0 → stepSimulation cfg noise st dt = (st, [])) ∧
    (cfg.bladeCount = 0 → (stepSimulation cfg noise st dt).2 = []) ∧
    (cfg.obstacles = [] → (stepSimulation cfg noise st dt).2 = []) := by
  refine ⟨?_, ?_, ?_⟩
  · intro h
    unfold stepSimulation
    rcases h with h | h
    · rw [if_pos h]
    · by_cases hdt : dt ≤ 0
      · rw [if_pos hdt]
      · rw [if_neg hdt, if_pos h]
  · intro hbc
    unfold stepSimulation
    split_ifs
    · rfl
    · rfl
    · apply accumRun_events_nil
      intro s _ s2
      unfold substep
      dsimp only
      rw [hbc]
      rfl
  · intro hobs
    unfold stepSimulation
    split_ifs
    · rfl
    · rfl
    · apply accumRun_events_nil
      intro s _ s2
      unfold substep
      dsimp only
      apply accumRun_events_nil
      intro b _ s3
      unfold bladePass
      dsimp only
      rw [hobs]
      rfl

/-- C3: `stepSimulation(dt)` runs exactly 4 equal sub-steps of size
`dt / 4`; total simulation time advances by `dt`, each sub-step advances
it by `dt / 4` from a non-negative start, and the nominal blade angle is
the canonical representative of `baseAngle + 2π·b / bladeCount` modulo
`2π`, lying in `[0, 2π)` — with `baseAngle = ω·simTime` and
`ω = (rpm / 60)·2π`. -/
theorem stepSimulation_substeps_correct (cfg : Config) (noise : ℕ → ℕ → ℝ)
    (st : SimState) (dt : ℝ) (hdt : 0 < dt) (homega : 0 < omega cfg)
    (ht0 : 0 ≤ st.simTime) :
    stepSimulation cfg noise st dt =
      runSubsteps cfg noise (dt / 4) 4
        (ensureWobblePhaseSize cfg (ensureHitStateSize cfg st)) ∧
    (stepSimulation cfg noise st dt).1.simTime = st.simTime + dt ∧
    (∀ s : ℕ, s ≤ 4 →
      (runSubsteps cfg noise (dt / 4) s
          (ensureWobblePhaseSize cfg (ensureHitStateSize cfg st))).1.simTime =
        st.simTime + s * (dt / 4) ∧
      0 ≤ omega cfg *
        (runSubsteps cfg noise (dt / 4) s
          (ensureWobblePhaseSize cfg (ensureHitStateSize cfg st))).1.simTime) ∧
    (∀ baseAngle : ℝ, 0 ≤ baseAngle → ∀ b : ℕ,
      bladeNominalAngle cfg baseAngle b =
        (baseAngle + TWO_PI * b / cfg.bladeCount) -
          TWO_PI * ⌊(baseAngle + TWO_PI * b / cfg.bladeCount) / TWO_PI⌋ ∧
      0 ≤ bladeNominalAngle cfg baseAngle b ∧
      bladeNominalAngle cfg baseAngle b < TWO_PI) := by
  have hstep : stepSimulation cfg noise st dt =
      runSubsteps cfg noise (dt / 4) 4
        (ensureWobblePhaseSize cfg (ensureHitStateSize cfg st)) := by
    unfold stepSimulation
    rw [if_neg (not_le.mpr hdt), if_neg (not_le.mpr homega)]
    norm_num
  have hsub : ∀ s : ℕ,
      (runSubsteps cfg noise (dt / 4) s
          (ensureWobblePhaseSize cfg (ensureHitStateSize cfg st))).1.simTime =
        st.simTime + s * (dt / 4) := by
    intro s
    rw [runSubsteps_simTime, ensureWobblePhaseSize_simTime,
      ensureHitStateSize_simTime]
  refine ⟨hstep, ?_, ?_, ?_⟩
  · rw [hstep, hsub 4]
    push_cast
    ring
  · intro s _
    refine ⟨hsub s, ?_⟩
    rw [hsub s]
    have h1 : (0:ℝ) ≤ (s : ℝ) * (dt / 4) :=
      mul_nonneg (Nat.cast_nonneg s) (by linarith)
    exact mul_nonneg homega.le (by linarith)
  · intro baseAngle hba b
    have harg : 0 ≤ baseAngle + TWO_PI * b / cfg.bladeCount := by
      have : (0:ℝ) ≤ TWO_PI * b / cfg.bladeCount :=
        div_nonneg (mul_nonneg TWO_PI_pos.le (Nat.cast_nonneg b))
          (Nat.cast_nonneg cfg.bladeCount)
      linarith
    exact jsMod_of_nonneg _ _ harg TWO_PI_pos

/-- C3 witness: the concrete one-blade configuration at `dt = 1`. -/
theorem stepSimulation_substeps_correct_witness :
    stepSimulation cfgWitness (fun _ _ => 0) stWitness 1 =
      runSubsteps cfgWitness (fun _ _ => 0) (1 / 4) 4
        (ensureWobblePhaseSize cfgWitness
          (ensureHitStateSize cfgWitness stWitness)) ∧
    (stepSimulation cfgWitness (fun _ _ => 0) stWitness 1).1.simTime =
      stWitness.simTime + 1 ∧
    (∀ s : ℕ, s ≤ 4 →
      (runSubsteps cfgWitness (fun _ _ => 0) (1 / 4) s
          (ensureWobblePhaseSize cfgWitness
            (ensureHitStateSize cfgWitness stWitness))).1.simTime =
        stWitness.simTime + s * (1 / 4) ∧
      0 ≤ omega cfgWitness *
        (runSubsteps cfgWitness (fun _ _ => 0) (1 / 4) s
          (ensureWobblePhaseSize cfgWitness
            (ensureHitStateSize cfgWitness stWitness))).1.simTime) ∧
    (∀ baseAngle : ℝ, 0 ≤ baseAngle → ∀ b : ℕ,
      bladeNominalAngle cfgWitness baseAngle b =
        (baseAngle + TWO_PI * b / cfgWitness.bladeCount) -
          TWO_PI * ⌊(baseAngle + TWO_PI * b / cfgWitness.bladeCount)
            / TWO_PI⌋ ∧
      0 ≤ bladeNominalAngle cfgWitness baseAngle b ∧
      bladeNominalAngle cfgWitness baseAngle b < TWO_PI) :=
  stepSimulation_substeps_correct cfgWitness (fun _ _ => 0) stWitness 1
    one_pos
    (by
      unfold omega cfgWitness
      norm_num
      exact TWO_PI_pos)
    (by
      unfold stWitness
      norm_num)

/-- C5 (amended): the angles `rebuildObstacles` stores and the nominal
blade angles lie in `[0, 2π)`; but the drag control only guarantees
`[0, 2π]` and attains exactly `2π` at the right edge, and the
wobble-adjusted blade angle used for collision testing is not
renormalised, so it can leave `[0, 2π)` (see the counterexample). -/
theorem angles_interval_correct :
    (∀ a : ℝ, 0 ≤ rebuildObstacleAngle a ∧ rebuildObstacleAngle a < TWO_PI) ∧
    (∀ (cfg : Config) (baseAngle : ℝ), 0 ≤ baseAngle → ∀ b : ℕ,
      0 ≤ bladeNominalAngle cfg baseAngle b ∧
      bladeNominalAngle cfg baseAngle b < TWO_PI) ∧
    (∀ ratio : ℝ,
      0 ≤ dragObstacleAngle ratio ∧ dragObstacleAngle ratio ≤ TWO_PI) ∧
    dragObstacleAngle 1 = TWO_PI := by
  refine ⟨?_, ?_, ?_, ?_⟩
  · intro a
    unfold rebuildObstacleAngle
    have houter : 0 ≤ jsMod a TWO_PI + TWO_PI := by
      have h2 := TWO_PI_pos
      rcases le_or_lt 0 a with h | h
      · have := (jsMod_of_nonneg a TWO_PI h TWO_PI_pos).2.1
        linarith
      · have := (jsMod_of_neg a TWO_PI h TWO_PI_pos).1
        linarith
    have hm := jsMod_of_nonneg _ _ houter TWO_PI_pos
    exact ⟨hm.2.1, hm.2.2⟩
  · intro cfg baseAngle hba b
    have harg : 0 ≤ baseAngle + TWO_PI * b / cfg.bladeCount := by
      have : (0:ℝ) ≤ TWO_PI * b / cfg.bladeCount :=
        div_nonneg (mul_nonneg TWO_PI_pos.le (Nat.cast_nonneg b))
          (Nat.cast_nonneg cfg.bladeCount)
      linarith
    have hm := jsMod_of_nonneg _ _ harg TWO_PI_pos
    exact ⟨hm.2.1, hm.2.2⟩
  · intro ratio
    unfold dragObstacleAngle
    constructor
    · exact mul_nonneg (clamp_mem01 ratio).1 TWO_PI_pos.le
    · exact mul_le_of_le_one_left TWO_PI_pos.le (clamp_mem01 ratio).2
  · unfold dragObstacleAngle
    rw [clamp_one01, one_mul]

/-- C5 counterexample to the claim as stated: in the concrete running
configuration (one blade at 60 rpm, axis jitter 1, wobble 0.75 Hz), at
simulation time `1` the wobble-adjusted blade angle used for collision
testing evaluates to `-1`, outside `[0, 2π)`. -/
theorem wobbleAdjustedBladeAngle_out_of_range_cex :
    wobbleAdjustedBladeAngle cfgWitness stWitness 0 1
      (omega cfgWitness * 1) 0 = -1 ∧
    ¬ (0 ≤ wobbleAdjustedBladeAngle cfgWitness stWitness 0 1
      (omega cfgWitness * 1) 0) := by
  have homega : omega cfgWitness = TWO_PI := by
    unfold omega cfgWitness
    norm_num
  have hnom : bladeNominalAngle cfgWitness (omega cfgWitness * 1) 0 = 0 := by
    rw [homega]
    unfold bladeNominalAngle
    have harg : TWO_PI * 1 + TWO_PI * ((0:ℕ):ℝ) / (cfgWitness.bladeCount : ℝ)
        = TWO_PI := by
      norm_num
    rw [harg]
    unfold jsMod jsTrunc
    rw [div_self (ne_of_gt TWO_PI_pos), if_pos zero_le_one]
    norm_num
  have hwob : bladeWobble cfgWitness stWitness 0 1 0 = -1 := by
    unfold bladeWobble
    dsimp only
    have hphase : stWitness.wobblePhasePerBlade.getD 0 0 = 0 := rfl
    have hwo : wobbleOmega cfgWitness = TWO_PI * (3/4) := by
      unfold wobbleOmega cfgWitness
      norm_num
    rw [hphase, hwo]
    have hang : TWO_PI * (3 / 4) * 1 + 0 = Real.pi + Real.pi / 2 := by
      unfold TWO_PI
      ring
    rw [hang, Real.sin_add, Real.sin_pi, Real.cos_pi, Real.sin_pi_div_two,
      Real.cos_pi_div_two]
    show cfgWitness.axisJitter * (0 * 0 + -1 * 1) +
      cfgWitness.axisJitter * noiseRatio * jitterFactor cfgWitness * 0 = -1
    norm_num [cfgWitness]
  have hval : wobbleAdjustedBladeAngle cfgWitness stWitness 0 1
      (omega cfgWitness * 1) 0 = -1 := by
    unfold wobbleAdjustedBladeAngle
    rw [hnom, hwob]
    norm_num
  exact ⟨hval, by rw [hval]; norm_num⟩

section NestedListLemmas

variable {γ : Type}

lemma getD_set_self (l : List γ) (i : ℕ) (v d : γ) (h : i < l.length) :
    (l.set i v).getD i d = v := by
  rw [List.getD_eq_getD_get?, List.get?_eq_getElem?,
    List.getElem?_set_eq_of_lt v h]
  rfl

lemma getD_set_ne (l : List γ) {i j : ℕ} (v d : γ) (h : i ≠ j) :
    (l.set i v).getD j d = l.getD j d := by
  rw [List.getD_eq_getD_get?, List.getD_eq_getD_get?, List.get?_eq_getElem?,
    List.get?_eq_getElem?, List.getElem?_set_ne h]

lemma getD2_setNested_self (l : List (List γ)) (b o : ℕ) (v d : γ)
    (hb : b < l.length) (ho : o < (l.getD b []).length) :
    ((setNested l b o v).getD b []).getD o d = v := by
  unfold setNested
  rw [getD_set_self l b _ [] hb]
  exact getD_set_self _ o v d ho

lemma getD2_setNested_ne (l : List (List γ)) {b o b2 o2 : ℕ} (v d : γ)
    (h : ¬ (b = b2 ∧ o = o2)) :
    ((setNested l b o v).getD b2 []).getD o2 d =
      (l.getD b2 []).getD o2 d := by
  unfold setNested
  by_cases hb : b = b2
  · subst hb
    have ho : o ≠ o2 := fun hc => h ⟨rfl, hc⟩
    rcases lt_or_le b l.length with hlt | hge
    · rw [getD_set_self l b _ [] hlt, getD_set_ne _ v d ho]
    · rw [List.set_eq_of_length_le hge]
  · rw [getD_set_ne l _ [] hb]

lemma length_setNested (l : List (List γ)) (b o : ℕ) (v : γ) :
    (setNested l b o v).length = l.length := by
  unfold setNested
  exact List.length_set l b _

lemma rowlen_setNested (l : List (List γ)) (b o : ℕ) (v : γ) (n : ℕ)
    (hb : b < l.length) (hall : ∀ row ∈ l, row.length = n) :
    ∀ row ∈ setNested l b o v, row.length = n := by
  intro row hrow
  unfold setNested at hrow
  rcases List.mem_or_eq_of_mem_set hrow with h1 | h1
  · exact hall _ h1
  · subst h1
    rw [List.length_set, List.getD_eq_getElem l [] hb]
    exact hall _ (List.getElem_mem hb)

end NestedListLemmas

lemma hitSized_iff (cfg : Config) (st : SimState) :
    HitSized cfg st ↔
      st.wasInHitZone.length = cfg.bladeCount ∧
      st.lastHitRev.length = cfg.bladeCount ∧
      (∀ row ∈ st.wasInHitZone, row.length = cfg.obstacles.length) ∧
      (∀ row ∈ st.lastHitRev, row.length = cfg.obstacles.length) := by
  unfold HitSized hitStateSizeOk
  simp only [Bool.and_eq_true, List.all_eq_true, decide_eq_true_eq]
  tauto

/-- Normal form of the per-pair pass: either the full emission condition
holds (rising edge into the zone and a fresh revolution) and the event is
raised with `lastHitRev[b][o] := revIndex`, or nothing is raised and only
the zone flag is written. -/
lemma pairPass_eq (cfg : Config) (t : ℝ) (rev : ℤ) (b o : ℕ) (ang : ℝ)
    (st : SimState) :
    pairPass cfg t rev b o ang st =
      if prevInZone st b o = false ∧ 0 < pairRawStrength cfg o ang ∧
          lastRevOf st b o < (rev : WithBot ℤ) then
        ({ st with
            lastHitRev := setNested st.lastHitRev b o (rev : WithBot ℤ),
            wasInHitZone := setNested st.wasInHitZone b o
              (decide (0 < pairRawStrength cfg o ang)) },
         [{ rawStrength := pairRawStrength cfg o ang, bladeIndex := b,
            obstacleIndex := o, time := t, rev := rev }])
      else
        ({ st with
            wasInHitZone := setNested st.wasInHitZone b o
              (decide (0 < pairRawStrength cfg o ang)) }, []) := by
  unfold pairPass
  dsimp only
  by_cases hp : prevInZone st b o = false
  · by_cases hz : 0 < pairRawStrength cfg o ang
    · have hc : (!prevInZone st b o &&
          decide (0 < pairRawStrength cfg o ang)) = true := by
        rw [hp]
        simp [hz]
      by_cases hr : lastRevOf st b o < (rev : WithBot ℤ)
      · rw [if_pos hc, if_pos hr, if_pos ⟨hp, hz, hr⟩]
      · rw [if_pos hc, if_neg hr,
          if_neg (fun hco => hr hco.2.2)]
    · have hc : ¬ ((!prevInZone st b o &&
          decide (0 < pairRawStrength cfg o ang)) = true) := by
        simp [hz]
      rw [if_neg hc, if_neg (fun hco => hz hco.2.1)]
  · have hpt : prevInZone st b o = true := by
      revert hp
      cases prevInZone st b o <;> simp
    have hc : ¬ ((!prevInZone st b o &&
        decide (0 < pairRawStrength cfg o ang)) = true) := by
      rw [hpt]
      simp
    rw [if_neg hc, if_neg (fun hco => hp hco.1)]

/-- C10: a zone-entry rising edge on a fresh revolution always records
`lastHitRev[b][o] = revIndex` — the detector does not consult the gate of
`registerCollision`, so the revolution slot is consumed even when the gate
silently discards the hit — and afterwards no event can be raised for that
pair at any revolution index up to the recorded one. -/
theorem revolution_slot_consumed (cfg : Config) (t : ℝ) (rev : ℤ)
    (b o : ℕ) (ang : ℝ) (st : SimState)
    (hsz : HitSized cfg st) (hb : b < cfg.bladeCount)
    (ho : o < cfg.obstacles.length)
    (hedge : prevInZone st b o = false)
    (hzone : 0 < pairRawStrength cfg o ang)
    (hrev : lastRevOf st b o < (rev : WithBot ℤ)) :
    lastRevOf (pairPass cfg t rev b o ang st).1 b o = (rev : WithBot ℤ) ∧
    (pairPass cfg t rev b o ang st).2 =
      [{ rawStrength := pairRawStrength cfg o ang, bladeIndex := b,
         obstacleIndex := o, time := t, rev := rev }] ∧
    (∀ (t2 : ℝ) (rev2 : ℤ) (ang2 : ℝ) (st2 : SimState),
      lastRevOf st2 b o = (rev : WithBot ℤ) → rev2 ≤ rev →
      (pairPass cfg t2 rev2 b o ang2 st2).2 = []) := by
  obtain ⟨hlen1, hlen2, _, hrows2⟩ := (hitSized_iff cfg st).mp hsz
  have hblt : b < st.lastHitRev.length := by
    rw [hlen2]
    exact hb
  have holt : o < (st.lastHitRev.getD b []).length := by
    rw [List.getD_eq_getElem st.lastHitRev [] hblt]
    rw [hrows2 _ (List.getElem_mem hblt)]
    exact ho
  rw [pairPass_eq, if_pos ⟨hedge, hzone, hrev⟩]
  refine ⟨?_, rfl, ?_⟩
  · unfold lastRevOf
    dsimp only
    exact getD2_setNested_self st.lastHitRev b o _ ⊥ hblt holt
  · intro t2 rev2 ang2 st2 hl2 hle
    rw [pairPass_eq, if_neg]
    intro hco
    have : (rev : WithBot ℤ) < (rev2 : WithBot ℤ) := hl2 ▸ hco.2.2
    exact absurd (WithBot.coe_lt_coe.mp this) (not_lt.mpr hle)

/-- C10 witness: in the concrete configuration an entry at angular offset
`0.24` rad has raw strength `0.04`, below the `0.12` threshold, so the
gate discards it — yet the revolution slot `lastHitRev[0][0]` is set to
revolution `0` and a second pass at the same revolution raises nothing. -/
theorem revolution_slot_consumed_witness :
    registerCollisionGate cfgWitness.hitThreshold
      (pairRawStrength cfgWitness 0 (24/100)) = none ∧
    lastRevOf (pairPass cfgWitness 1 0 0 0 (24/100) stWitness).1 0 0 =
      ((0:ℤ) : WithBot ℤ) ∧
    (pairPass cfgWitness 1 0 0 0 (24/100) stWitness).2 =
      [{ rawStrength := pairRawStrength cfgWitness 0 (24/100),
         bladeIndex := 0, obstacleIndex := 0, time := 1, rev := 0 }] ∧
    (∀ (t2 : ℝ) (rev2 : ℤ) (ang2 : ℝ) (st2 : SimState),
      lastRevOf st2 0 0 = ((0:ℤ) : WithBot ℤ) → rev2 ≤ 0 →
      (pairPass cfgWitness t2 rev2 0 0 ang2 st2).2 = []) := by
  have hobs : obstacleAngle cfgWitness 0 = 0 := rfl
  have hsad : smallestAngleDiff (24/100) 0 = 24/100 := by
    unfold smallestAngleDiff
    rw [show (24/100 : ℝ) - 0 = 24/100 by ring]
    have hpi := Real.pi_gt_three
    have hd : wrapDown (24/100) = 24/100 := by
      rw [wrapDown, dif_neg (not_lt.mpr (by linarith))]
    have hu : wrapUp (24/100) = 24/100 := by
      rw [wrapUp, dif_neg (not_lt.mpr (by linarith))]
    rw [hd, hu]
  have hraw : pairRawStrength cfgWitness 0 (24/100) = 1/25 := by
    unfold pairRawStrength
    rw [hobs, hsad]
    unfold HIT_ANGLE_TOL
    rw [show |(24/100 : ℝ)| = 24/100 from abs_of_nonneg (by norm_num)]
    rw [show (1:ℝ) - (24/100) / 0.25 = 1/25 by norm_num]
    exact clamp_of_mem (by norm_num) (by norm_num)
  have hzone : 0 < pairRawStrength cfgWitness 0 (24/100) := by
    rw [hraw]
    norm_num
  refine ⟨?_, ?_⟩
  · rw [hraw]
    rw [registerCollisionGate_eq_none_iff]
    right
    show (1/25 : ℝ) < clamp cfgWitness.hitThreshold 0 1
    have : cfgWitness.hitThreshold = 12/100 := rfl
    rw [this, clamp_of_mem (by norm_num) (by norm_num)]
    norm_num
  · exact revolution_slot_consumed cfgWitness 1 0 0 0 (24/100) stWitness
      rfl (by norm_num [cfgWitness]) (by norm_num [cfgWitness, obstacleAtZero])
      rfl hzone (by
        show lastRevOf stWitness 0 0 < ((0:ℤ) : WithBot ℤ)
        show (⊥ : WithBot ℤ) < ((0:ℤ) : WithBot ℤ)
        exact WithBot.bot_lt_coe 0)

section RevChainLemmas

lemma revChain_nil (l : WithBot ℤ) : RevChain l [] := trivial

lemma revChain_all_gt {l : WithBot ℤ} {rs : List ℤ} (h : RevChain l rs) :
    ∀ r ∈ rs, l < (r : WithBot ℤ) := by
  induction rs generalizing l with
  | nil => intro r hr; simp at hr
  | cons x xs ih =>
    intro r hr
    rcases List.mem_cons.mp hr with h1 | h1
    · subst h1
      exact h.1
    · exact lt_trans h.1 (ih h.2 r h1)

lemma revChain_pairwise {l : WithBot ℤ} {rs : List ℤ} (h : RevChain l rs) :
    rs.Pairwise (· < ·) := by
  induction rs generalizing l with
  | nil => exact List.Pairwise.nil
  | cons x xs ih =>
    refine List.Pairwise.cons ?_ (ih h.2)
    intro r hr
    exact_mod_cast revChain_all_gt h.2 r hr

lemma endRev_cons (l : WithBot ℤ) (r : ℤ) (rs : List ℤ) :
    endRev l (r :: rs) = endRev (r : WithBot ℤ) rs := rfl

lemma endRev_append (l : WithBot ℤ) (xs ys : List ℤ) :
    endRev l (xs ++ ys) = endRev (endRev l xs) ys := by
  unfold endRev
  rw [List.foldl_append]

lemma revChain_le_endRev {l : WithBot ℤ} {rs : List ℤ}
    (h : RevChain l rs) : l ≤ endRev l rs := by
  induction rs generalizing l with
  | nil => exact le_refl l
  | cons x xs ih =>
    rw [endRev_cons]
    exact le_trans h.1.le (ih h.2)

lemma revChain_all_le_endRev {l : WithBot ℤ} {rs : List ℤ}
    (h : RevChain l rs) : ∀ r ∈ rs, (r : WithBot ℤ) ≤ endRev l rs := by
  induction rs generalizing l with
  | nil => intro r hr; simp at hr
  | cons x xs ih =>
    intro r hr
    rw [endRev_cons]
    rcases List.mem_cons.mp hr with h1 | h1
    · subst h1
      exact revChain_le_endRev h.2
    · exact ih h.2 r h1

lemma revChain_append (l : WithBot ℤ) (xs ys : List ℤ)
    (hx : RevChain l xs) (hy : RevChain (endRev l xs) ys) :
    RevChain l (xs ++ ys) := by
  induction xs generalizing l with
  | nil => exact hy
  | cons x xs ih =>
    exact ⟨hx.1, ih (x : WithBot ℤ) hx.2 hy⟩

lemma pairRevList_nil (b o : ℕ) : pairRevList b o [] = [] := rfl

lemma pairRevList_append (b o : ℕ) (e1 e2 : List CollisionEvent) :
    pairRevList b o (e1 ++ e2) =
      pairRevList b o e1 ++ pairRevList b o e2 := by
  unfold pairRevList
  rw [List.filter_append, List.map_append]

lemma pairRevList_singleton_match (b o : ℕ) (e : CollisionEvent)
    (hb : e.bladeIndex = b) (ho : e.obstacleIndex = o) :
    pairRevList b o [e] = [e.rev] := by
  unfold pairRevList
  simp [hb, ho]

lemma pairRevList_singleton_nomatch (b o : ℕ) (e : CollisionEvent)
    (h : ¬ (e.bladeIndex = b ∧ e.obstacleIndex = o)) :
    pairRevList b o [e] = [] := by
  unfold pairRevList
  rcases not_and_or.mp h with h1 | h1 <;> simp [h1]

lemma pairStepOk_refl (b o : ℕ) (s : SimState) : PairStepOk b o s [] s :=
  ⟨trivial, rfl⟩

lemma pairStepOk_of_state (b o : ℕ) (s s2 : SimState)
    (h : lastRevOf s2 b o = lastRevOf s b o) : PairStepOk b o s [] s2 :=
  ⟨trivial, h⟩

lemma pairStepOk_comp {b o : ℕ} {s0 s1 s2 : SimState}
    {e1 e2 : List CollisionEvent}
    (h1 : PairStepOk b o s0 e1 s1) (h2 : PairStepOk b o s1 e2 s2) :
    PairStepOk b o s0 (e1 ++ e2) s2 := by
  unfold PairStepOk at *
  rw [pairRevList_append]
  refine ⟨revChain_append _ _ _ h1.1 (h1.2 ▸ h2.1), ?_⟩
  rw [endRev_append, ← h1.2]
  exact h2.2

end RevChainLemmas

section PairStepLemmas

lemma hitSized_pairPass (cfg : Config) (t : ℝ) (rev : ℤ) {b2 o2 : ℕ}
    (hb2 : b2 < cfg.bladeCount) (ang : ℝ) (st : SimState)
    (hsz : HitSized cfg st) :
    HitSized cfg (pairPass cfg t rev b2 o2 ang st).1 := by
  obtain ⟨hlen1, hlen2, hrows1, hrows2⟩ := (hitSized_iff cfg st).mp hsz
  have hb1 : b2 < st.wasInHitZone.length := hlen1 ▸ hb2
  have hb2' : b2 < st.lastHitRev.length := hlen2 ▸ hb2
  rw [pairPass_eq]
  split_ifs with hco
  · rw [hitSized_iff]
    refine ⟨?_, ?_, ?_, ?_⟩
    · rw [length_setNested]
      exact hlen1
    · rw [length_setNested]
      exact hlen2
    · exact rowlen_setNested _ _ _ _ _ hb1 hrows1
    · exact rowlen_setNested _ _ _ _ _ hb2' hrows2
  · rw [hitSized_iff]
    exact ⟨by rw [length_setNested]; exact hlen1, hlen2,
      rowlen_setNested _ _ _ _ _ hb1 hrows1, hrows2⟩

lemma pairPass_stepOk (cfg : Config) (t : ℝ) (rev : ℤ) {b2 o2 : ℕ}
    (hb2 : b2 < cfg.bladeCount) (ho2 : o2 < cfg.obstacles.length)
    (ang : ℝ) (b o : ℕ) (st : SimState) (hsz : HitSized cfg st) :
    PairStepOk b o st (pairPass cfg t rev b2 o2 ang st).2
      (pairPass cfg t rev b2 o2 ang st).1 := by
  obtain ⟨hlen1, hlen2, hrows1, hrows2⟩ := (hitSized_iff cfg st).mp hsz
  have hblt : b2 < st.lastHitRev.length := hlen2 ▸ hb2
  have holt : o2 < (st.lastHitRev.getD b2 []).length := by
    rw [List.getD_eq_getElem st.lastHitRev [] hblt]
    rw [hrows2 _ (List.getElem_mem hblt)]
    exact ho2
  rw [pairPass_eq]
  split_ifs with hco
  · by_cases hbo : b2 = b ∧ o2 = o
    · obtain ⟨hbb, hoo⟩ := hbo
      subst hbb
      subst hoo
      constructor
      · rw [pairRevList_singleton_match b2 o2 _ rfl rfl]
        exact ⟨hco.2.2, trivial⟩
      · rw [pairRevList_singleton_match b2 o2 _ rfl rfl]
        unfold lastRevOf
        dsimp only
        rw [endRev_cons]
        exact getD2_setNested_self st.lastHitRev b2 o2 _ ⊥ hblt holt
    · constructor
      · rw [pairRevList_singleton_nomatch b o _ hbo]
        exact trivial
      · rw [pairRevList_singleton_nomatch b o _ hbo]
        unfold lastRevOf endRev
        dsimp only
        exact getD2_setNested_ne st.lastHitRev ((rev : WithBot ℤ)) ⊥ hbo
  · exact pairStepOk_of_state b o st _ rfl

end PairStepLemmas

section StepOkLifting

lemma accumRun_stepOk {ι : Type} (cfg : Config) (b o : ℕ)
    (f : ι → SimState → SimState × List CollisionEvent) (l : List ι)
    (hf : ∀ x ∈ l, ∀ s, HitSized cfg s →
      PairStepOk b o s (f x s).2 (f x s).1 ∧ HitSized cfg (f x s).1) :
    ∀ s, HitSized cfg s →
      PairStepOk b o s (accumRun f l s).2 (accumRun f l s).1 ∧
      HitSized cfg (accumRun f l s).1 := by
  induction l with
  | nil => intro s hs; exact ⟨pairStepOk_refl b o s, hs⟩
  | cons x xs ih =>
    intro s hs
    rw [accumRun_cons]
    dsimp only
    obtain ⟨hok1, hsz1⟩ := hf x (List.mem_cons_self x xs) s hs
    obtain ⟨hok2, hsz2⟩ :=
      ih (fun y hy => hf y (List.mem_cons_of_mem x hy)) (f x s).1 hsz1
    exact ⟨pairStepOk_comp hok1 hok2, hsz2⟩

lemma bladePass_stepOk (cfg : Config) (nv t ba : ℝ) (rev : ℤ) {b2 : ℕ}
    (hb2 : b2 < cfg.bladeCount) (b o : ℕ) (s : SimState)
    (hs : HitSized cfg s) :
    PairStepOk b o s (bladePass cfg nv t ba rev b2 s).2
      (bladePass cfg nv t ba rev b2 s).1 ∧
    HitSized cfg (bladePass cfg nv t ba rev b2 s).1 := by
  unfold bladePass
  dsimp only
  exact accumRun_stepOk cfg b o _ _
    (fun o2 ho2 s2 hs2 =>
      ⟨pairPass_stepOk cfg t rev hb2 (List.mem_range.mp ho2) _ b o s2 hs2,
        hitSized_pairPass cfg t rev hb2 _ s2 hs2⟩) s hs

lemma substep_stepOk (cfg : Config) (noise : ℕ → ℝ) (h : ℝ) (b o : ℕ)
    (s : SimState) (hs : HitSized cfg s) :
    PairStepOk b o s (substep cfg noise h s).2 (substep cfg noise h s).1 ∧
    HitSized cfg (substep cfg noise h s).1 := by
  unfold substep
  dsimp only
  have hmid : PairStepOk b o s [] { s with simTime := s.simTime + h } :=
    pairStepOk_of_state b o s _ rfl
  have hmidsz : HitSized cfg { s with simTime := s.simTime + h } := hs
  have hrun := accumRun_stepOk cfg b o
    (fun b2 s2 => bladePass cfg (noise b2) (s.simTime + h)
      (omega cfg * (s.simTime + h))
      ⌊omega cfg * (s.simTime + h) / TWO_PI⌋ b2 s2)
    (List.range cfg.bladeCount)
    (fun b2 hb2m s2 hs2 =>
      bladePass_stepOk cfg (noise b2) (s.simTime + h)
        (omega cfg * (s.simTime + h))
        ⌊omega cfg * (s.simTime + h) / TWO_PI⌋
        (List.mem_range.mp hb2m) b o s2 hs2)
    _ hmidsz
  refine ⟨?_, hrun.2⟩
  have := pairStepOk_comp hmid hrun.1
  simpa using this

lemma runSubsteps_stepOk (cfg : Config) (noise : ℕ → ℕ → ℝ) (h : ℝ)
    (n : ℕ) (b o : ℕ) (s : SimState) (hs : HitSized cfg s) :
    PairStepOk b o s (runSubsteps cfg noise h n s).2
      (runSubsteps cfg noise h n s).1 ∧
    HitSized cfg (runSubsteps cfg noise h n s).1 := by
  unfold runSubsteps
  exact accumRun_stepOk cfg b o _ _
    (fun x _ s2 hs2 => substep_stepOk cfg (noise x) h b o s2 hs2) s hs

lemma ensureHitStateSize_sized (cfg : Config) (st : SimState) :
    HitSized cfg (ensureHitStateSize cfg st) := by
  unfold ensureHitStateSize
  split_ifs with h
  · exact h
  · rw [hitSized_iff]
    unfold resetHitStates
    refine ⟨List.length_replicate _ _, List.length_replicate _ _, ?_, ?_⟩
    · intro row hrow
      rw [List.eq_of_mem_replicate hrow]
      exact List.length_replicate _ _
    · intro row hrow
      rw [List.eq_of_mem_replicate hrow]
      exact List.length_replicate _ _

lemma ensureHitStateSize_of_sized (cfg : Config) (st : SimState)
    (h : HitSized cfg st) : ensureHitStateSize cfg st = st := by
  unfold ensureHitStateSize
  exact if_pos h

lemma ensureWobblePhaseSize_sized (cfg : Config) (st : SimState)
    (h : HitSized cfg st) : HitSized cfg (ensureWobblePhaseSize cfg st) := by
  unfold ensureWobblePhaseSize resetWobblePhases
  split_ifs <;> exact h

lemma lastRevOf_ensureWobble (cfg : Config) (st : SimState) (b o : ℕ) :
    lastRevOf (ensureWobblePhaseSize cfg st) b o = lastRevOf st b o := by
  unfold ensureWobblePhaseSize resetWobblePhases
  split_ifs <;> rfl

lemma stepSimulation_stepCases (cfg : Config) (noise : ℕ → ℕ → ℝ)
    (st : SimState) (dt : ℝ) (b o : ℕ) :
    stepSimulation cfg noise st dt = (st, []) ∨
    (PairStepOk b o (ensureWobblePhaseSize cfg (ensureHitStateSize cfg st))
        (stepSimulation cfg noise st dt).2
        (stepSimulation cfg noise st dt).1 ∧
      HitSized cfg (stepSimulation cfg noise st dt).1) := by
  unfold stepSimulation
  split_ifs with h1 h2
  · exact Or.inl rfl
  · exact Or.inl rfl
  · right
    dsimp only
    exact runSubsteps_stepOk cfg noise _ 4 b o _
      (ensureWobblePhaseSize_sized cfg _ (ensureHitStateSize_sized cfg st))

end StepOkLifting

section TraceLemmas

lemma runSim_chain (cfg : Config) (b o : ℕ) :
    ∀ (ticks : List (ℝ × (ℕ → ℕ → ℝ))) (s : SimState),
      (pairRevList b o (runSim cfg ticks s).2).Pairwise (· < ·) ∧
      (HitSized cfg s →
        PairStepOk b o s (runSim cfg ticks s).2 (runSim cfg ticks s).1 ∧
        HitSized cfg (runSim cfg ticks s).1) := by
  intro ticks
  induction ticks with
  | nil =>
    intro s
    refine ⟨List.Pairwise.nil, ?_⟩
    intro hs
    exact ⟨pairStepOk_refl b o s, hs⟩
  | cons tk ticks ih =>
    intro s
    unfold runSim at ih ⊢
    rw [accumRun_cons]
    dsimp only
    rcases stepSimulation_stepCases cfg tk.2 s tk.1 b o with hno | heff
    · rw [hno]
      dsimp only
      constructor
      · simpa using (ih s).1
      · intro hs
        have h2 := (ih s).2 hs
        constructor
        · simpa using h2.1
        · exact h2.2
    · obtain ⟨hok, hsz1⟩ := heff
      have hrest := ih (stepSimulation cfg tk.2 s tk.1).1
      constructor
      · rw [pairRevList_append]
        have hcomp := pairStepOk_comp hok ((hrest.2 hsz1).1)
        have := revChain_pairwise hcomp.1
        rwa [pairRevList_append] at this
      · intro hs
        have hlr : lastRevOf
            (ensureWobblePhaseSize cfg (ensureHitStateSize cfg s)) b o =
            lastRevOf s b o := by
          rw [ensureHitStateSize_of_sized cfg s hs, lastRevOf_ensureWobble]
        have hok2 : PairStepOk b o s (stepSimulation cfg tk.2 s tk.1).2
            (stepSimulation cfg tk.2 s tk.1).1 := by
          unfold PairStepOk at hok ⊢
          rw [← hlr]
          exact hok
        exact ⟨pairStepOk_comp hok2 ((hrest.2 hsz1).1), (hrest.2 hsz1).2⟩

lemma pairPass_events_shape (cfg : Config) (t : ℝ) (rev : ℤ) (b2 o2 : ℕ)
    (ang : ℝ) (st : SimState) :
    ∀ e ∈ (pairPass cfg t rev b2 o2 ang st).2, e.time = t ∧ e.rev = rev := by
  rw [pairPass_eq]
  split_ifs with h
  · intro e he
    rw [List.mem_singleton.mp he]
    exact ⟨rfl, rfl⟩
  · intro e he
    simp at he

lemma bladePass_events_shape (cfg : Config) (nv t ba : ℝ) (rev : ℤ)
    (b2 : ℕ) (st : SimState) :
    ∀ e ∈ (bladePass cfg nv t ba rev b2 st).2, e.time = t ∧ e.rev = rev := by
  unfold bladePass
  dsimp only
  apply accumRun_mem_events
  intro o2 _ s2
  exact pairPass_events_shape cfg t rev b2 o2 _ s2

lemma substep_events_rev (cfg : Config) (noise : ℕ → ℝ) (h : ℝ)
    (st : SimState) :
    ∀ e ∈ (substep cfg noise h st).2,
      e.rev = ⌊omega cfg * e.time / TWO_PI⌋ := by
  unfold substep
  dsimp only
  apply accumRun_mem_events
  intro b2 _ s2 e he
  obtain ⟨ht, hr⟩ := bladePass_events_shape cfg _ _ _ _ b2 s2 e he
  rw [hr, ht]

lemma runSim_events_rev (cfg : Config) (ticks : List (ℝ × (ℕ → ℕ → ℝ)))
    (st : SimState) :
    ∀ e ∈ (runSim cfg ticks st).2,
      e.rev = ⌊omega cfg * e.time / TWO_PI⌋ := by
  unfold runSim
  apply accumRun_mem_events
  intro tk _ s e he
  unfold stepSimulation at he
  split_ifs at he
  · simp at he
  · simp at he
  · revert he
    unfold runSubsteps
    apply accumRun_mem_events
    intro x _ s2 e2 he2
    exact substep_events_rev cfg (tk.2 x) _ s2 e2 he2

end TraceLemmas

lemma HIT_ANGLE_TOL_pos : (0:ℝ) < HIT_ANGLE_TOL := by
  unfold HIT_ANGLE_TOL
  norm_num

lemma pairRawStrength_pos_iff (cfg : Config) (o : ℕ) (ang : ℝ) :
    0 < pairRawStrength cfg o ang ↔
      |smallestAngleDiff ang (obstacleAngle cfg o)| < HIT_ANGLE_TOL := by
  unfold pairRawStrength clamp
  constructor
  · intro h
    have h1 := (lt_min_iff.mp h).1
    have h2 : (0:ℝ) <
        1 - |smallestAngleDiff ang (obstacleAngle cfg o)| / HIT_ANGLE_TOL := by
      rcases lt_max_iff.mp h1 with h3 | h3
      · exact h3
      · exact absurd h3 (lt_irrefl 0)
    have h4 := (div_lt_one HIT_ANGLE_TOL_pos).mp (by linarith)
    exact h4
  · intro h
    have h1 : (0:ℝ) <
        1 - |smallestAngleDiff ang (obstacleAngle cfg o)| / HIT_ANGLE_TOL := by
      have := (div_lt_one HIT_ANGLE_TOL_pos).mpr h
      linarith
    exact lt_min (lt_max_iff.mpr (Or.inl h1)) one_pos

/-- C2: for every (blade, obstacle) pair and any run of driving-loop
ticks, the revolution indices of the events raised for that pair are
strictly increasing — so at most one collision event is raised for the
pair in any one revolution, even when the blade stays inside the zone
across several sub-steps; every event's revolution index is
`⌊ω·simTime / 2π⌋` at its emission time; and the per-pair pass raises an
event only on a rising edge (previously outside the 0.25 rad tolerance
zone, now inside) with the current revolution strictly beyond the pair's
recorded one. -/
theorem collision_once_per_revolution (cfg : Config) (b o : ℕ) :
    (∀ (ticks : List (ℝ × (ℕ → ℕ → ℝ))) (st : SimState),
      (pairRevList b o (runSim cfg ticks st).2).Pairwise (· < ·)) ∧
    (∀ (ticks : List (ℝ × (ℕ → ℕ → ℝ))) (st : SimState),
      ∀ e ∈ (runSim cfg ticks st).2,
        e.rev = ⌊omega cfg * e.time / TWO_PI⌋) ∧
    (∀ (t : ℝ) (rev : ℤ) (ang : ℝ) (st : SimState),
      (pairPass cfg t rev b o ang st).2 ≠ [] →
      prevInZone st b o = false ∧
      |smallestAngleDiff ang (obstacleAngle cfg o)| < HIT_ANGLE_TOL ∧
      lastRevOf st b o < (rev : WithBot ℤ)) := by
  refine ⟨?_, ?_, ?_⟩
  · intro ticks st
    exact (runSim_chain cfg b o ticks st).1
  · intro ticks st
    exact runSim_events_rev cfg ticks st
  · intro t rev ang st hne
    rw [pairPass_eq] at hne
    split_ifs at hne with hco
    · exact ⟨hco.1, (pairRawStrength_pos_iff cfg o ang).mp hco.2.1,
        hco.2.2⟩
    · simp at hne

end VentBeat
